import Mathlib

/-!
Verification of the date-planner free-time engine and its mobile caller.

The repository's algorithmic core is the mutual free-time computation
(`find_free_slots` in the backend): merge two participants' busy intervals
inside a query window and extract the gaps whose duration meets a minimum
threshold.  The backend implementation itself is not part of the source
tree here (only its documentation and its callers are), so the engine is
modelled from the specification; the mobile schedule screen
(`src/mobile/src/screens/ScheduleScreen.tsx`) and the calendar API client
(`src/mobile/src/api/calendar.ts`) are embedded from their TypeScript
source.

Timestamps are modelled as integers (seconds); durations in hours are
exact rationals `(stop - start) / 3600`, which faithfully captures every
comparison the engine performs.
-/

namespace DatePlanner

/-- Modelled from the spec: `TimeInterval`, a closed-open range `[start, end)`
of UTC timestamps.  The spec's field `end` is a Lean keyword and is named
`stop` here. -/
structure TimeInterval where
  start : Int
  stop : Int
deriving DecidableEq, Repr

/-- Modelled from the spec: `QueryWindow` is a `{start, end}` pair with the
same shape as a time interval. -/
abbrev QueryWindow := TimeInterval

/-- Modelled from the spec: `FreeSlot`, a time interval plus its
`durationHours`, computed once at construction as `(end - start)` in hours. -/
structure FreeSlot where
  start : Int
  stop : Int
  durationHours : ℚ
deriving DecidableEq, Repr

/-- Modelled from the spec: the three validation failures of the engine
(`InvalidIntervalError`, `InvalidWindowError`, `InvalidThresholdError`). -/
inductive EngineError where
  | invalidIntervalError
  | invalidWindowError
  | invalidThresholdError
deriving DecidableEq, Repr

/-- Modelled from the spec: duration of an interval in hours,
`(end - start) / 3600` with timestamps in seconds (written with `mkRat`,
which builds the same rational as the division; see
`durationHoursOf_eq_div`). -/
def durationHoursOf (i : TimeInterval) : ℚ :=
  mkRat (i.stop - i.start) 3600

/-- Modelled from the spec: build the `FreeSlot` for an interval, computing
`durationHours` once at construction. -/
def mkFreeSlot (i : TimeInterval) : FreeSlot :=
  ⟨i.start, i.stop, durationHoursOf i⟩

/-- Modelled from the spec, step 1 of the algorithm: clip a busy interval to
the window; an interval that does not intersect the window at all
(`end ≤ window.start` or `start ≥ window.end`) is discarded. -/
def clipToWindow (w : QueryWindow) (i : TimeInterval) : Option TimeInterval :=
  if i.stop ≤ w.start ∨ w.stop ≤ i.start then none
  else some ⟨max i.start w.start, min i.stop w.stop⟩

/-- Modelled from the spec, step 3: sort order on intervals, by `start`
ascending with ties broken by `end` ascending. -/
def intervalLE (a b : TimeInterval) : Prop :=
  a.start < b.start ∨ (a.start = b.start ∧ a.stop ≤ b.stop)

instance : DecidableRel intervalLE := fun a b => by
  unfold intervalLE; infer_instance

/-- Insert an interval into a list sorted by `intervalLE`, keeping it sorted. -/
def insertSorted (x : TimeInterval) : List TimeInterval → List TimeInterval
  | [] => [x]
  | y :: ys => if intervalLE x y then x :: y :: ys else y :: insertSorted x ys

/-- Modelled from the spec, step 3: sort the combined busy collection by
`start` ascending, ties by `end` ascending (insertion sort). -/
def sortIntervals (l : List TimeInterval) : List TimeInterval :=
  l.foldr insertSorted []

/-- Modelled from the spec, step 4 (inner loop): fold the sorted intervals
into disjoint busy blocks, extending the current block's `end` to
`max(currentEnd, nextEnd)` on overlap or adjacency (`nextStart ≤ currentEnd`),
otherwise closing the current block and starting a new one. -/
def mergeGo (cur : TimeInterval) : List TimeInterval → List TimeInterval
  | [] => [cur]
  | n :: rest =>
    if n.start ≤ cur.stop then mergeGo ⟨cur.start, max cur.stop n.stop⟩ rest
    else cur :: mergeGo n rest

/-- Modelled from the spec, step 4: merge overlapping or adjacent sorted
intervals into a minimal set of disjoint busy blocks. -/
def mergeBlocks : List TimeInterval → List TimeInterval
  | [] => []
  | b :: rest => mergeGo b rest

/-- Modelled from the spec, steps 5 and 6 (inner loop): walk the merged busy
blocks with a cursor, emitting a candidate free slot `[cursor, block.start)`
whenever `block.start > cursor` and advancing the cursor to
`max(cursor, block.end)`; after the last block, emit `[cursor, window.end)`
if `cursor < window.end`. -/
def gapsGo (w : QueryWindow) (cursor : Int) : List TimeInterval → List TimeInterval
  | [] => if cursor < w.stop then [⟨cursor, w.stop⟩] else []
  | b :: rest =>
    (if cursor < b.start then [⟨cursor, b.start⟩] else []) ++
      gapsGo w (max cursor b.stop) rest

/-- Modelled from the spec, steps 5 and 6: extract the candidate free gaps
between merged busy blocks inside the window, cursor initialized to
`window.start`. -/
def extractGaps (w : QueryWindow) (blocks : List TimeInterval) : List TimeInterval :=
  gapsGo w w.start blocks

/-- Modelled from the spec, steps 1 to 4: the merged busy timeline of the two
participants inside the window — clip both collections to the window, drop
intervals outside it, concatenate, sort, and merge into disjoint blocks. -/
def mergedTimeline (busyA busyB : List TimeInterval) (w : QueryWindow) :
    List TimeInterval :=
  mergeBlocks (sortIntervals ((busyA ++ busyB).filterMap (clipToWindow w)))

/-- Modelled from the spec: `computeFreeSlots(busyA, busyB, window,
minDurationHours)` — the backend's `find_free_slots` free-time engine, which
is absent from the source tree (only its documentation and callers are
present).  Validates every busy interval (`start < end`), the window
(`start < end`) and the threshold (`≥ 0`), then clips, sorts, merges,
extracts gaps and keeps those with `durationHours ≥ minDurationHours`. -/
def computeFreeSlots (busyA busyB : List TimeInterval) (w : QueryWindow)
    (minDurationHours : ℚ) : Except EngineError (List FreeSlot) :=
  if ¬ (∀ i ∈ busyA ++ busyB, i.start < i.stop) then
    .error .invalidIntervalError
  else if w.stop ≤ w.start then
    .error .invalidWindowError
  else if minDurationHours < 0 then
    .error .invalidThresholdError
  else
    .ok (((extractGaps w (mergedTimeline busyA busyB w)).map mkFreeSlot).filter
      fun s => minDurationHours ≤ s.durationHours)

/-- Modelled from the spec and from `calendar.ts` (`minDurationHours:
number = 2.0`): the engine invoked with the threshold omitted uses the
default of 2.0 hours. -/
def computeFreeSlotsDefault (busyA busyB : List TimeInterval) (w : QueryWindow) :
    Except EngineError (List FreeSlot) :=
  computeFreeSlots busyA busyB w 2

/-- A point is busy with respect to a list of intervals when some interval
of the list contains it. -/
def busyAt (l : List TimeInterval) (x : Int) : Prop :=
  ∃ b ∈ l, b.start ≤ x ∧ x < b.stop

instance (l : List TimeInterval) (x : Int) : Decidable (busyAt l x) := by
  unfold busyAt; infer_instance

/-- A point is free when it lies inside the window and no interval of the
list covers it. -/
def freeAt (w : QueryWindow) (l : List TimeInterval) (x : Int) : Prop :=
  w.start ≤ x ∧ x < w.stop ∧ ¬ busyAt l x

instance (w : QueryWindow) (l : List TimeInterval) (x : Int) :
    Decidable (freeAt w l x) := by
  unfold freeAt; infer_instance

/-- A maximal gap of a busy timeline inside a window: a nonempty interval
all of whose points are free, that cannot be extended on either side. -/
def isMaximalGap (w : QueryWindow) (l : List TimeInterval) (g : TimeInterval) :
    Prop :=
  g.start < g.stop ∧
    (∀ x, g.start ≤ x → x < g.stop → freeAt w l x) ∧
    ¬ freeAt w l (g.start - 1) ∧ ¬ freeAt w l g.stop

instance {ε α : Type} [DecidableEq ε] [DecidableEq α] :
    DecidableEq (Except ε α) := fun a b =>
  match a, b with
  | .ok x, .ok y => if h : x = y then .isTrue (by rw [h]) else .isFalse (by simp [h])
  | .error x, .error y => if h : x = y then .isTrue (by rw [h]) else .isFalse (by simp [h])
  | .ok _, .error _ => .isFalse (by simp)
  | .error _, .ok _ => .isFalse (by simp)

/-- The stored duration is the spec's formula `(end - start) / 3600`. -/
theorem durationHoursOf_eq_div (i : TimeInterval) :
    durationHoursOf i = ((i.stop - i.start : Int) : ℚ) / 3600 := by
  simpa [durationHoursOf] using Rat.mkRat_eq_div (i.stop - i.start) 3600

/-! ## Mobile client (`src/mobile/src/api/calendar.ts`,
`src/mobile/src/screens/ScheduleScreen.tsx`) -/

/-- From `calendar.ts`: `CalendarEvent` as delivered by the backend.  The
field `end` is named `stop`. -/
structure CalendarEvent where
  summary : String
  start : String
  stop : String
  description : String
deriving DecidableEq, Repr

/-- From `calendar.ts`: response of `getMyEvents` / `getPartnerEvents`. -/
structure GetEventsResponse where
  events : List CalendarEvent
  user_name : String
deriving DecidableEq, Repr

/-- From `calendar.ts`: a free slot as delivered over the wire (`FreeSlot`
there; named `ApiFreeSlot` here to keep it distinct from the engine's
`FreeSlot`). -/
structure ApiFreeSlot where
  start : String
  stop : String
  duration_hours : ℚ
deriving DecidableEq, Repr

/-- From `calendar.ts`: response of `getFreeSlots`. -/
structure GetFreeSlotsResponse where
  free_slots : List ApiFreeSlot
  time_frame_start : String
  time_frame_end : String
deriving DecidableEq, Repr

/-- Outcome of one promise inside `Promise.allSettled`: fulfilled with a
value, or rejected with a reason. -/
inductive SettledResult (α : Type) where
  | fulfilled (value : α)
  | rejected (reason : String)
deriving DecidableEq, Repr

/-- From `ScheduleScreen.tsx`: the component state touched by
`loadScheduleData` (the `useState` hooks). -/
structure ScheduleScreenState where
  myEvents : List CalendarEvent
  partnerEvents : List CalendarEvent
  freeSlots : List ApiFreeSlot
  myName : String
  partnerName : String
  error : Option String
  isLoading : Bool
  refreshing : Bool
deriving DecidableEq, Repr

/-- From `ScheduleScreen.tsx`: the `useState` initial values (empty lists,
empty names, no error, `isLoading` true, `refreshing` false). -/
def initialScheduleScreenState : ScheduleScreenState :=
  ⟨[], [], [], "", "", none, true, false⟩

/-- From `ScheduleScreen.tsx`, `loadScheduleData`: clears the error, awaits
the three fetches with `Promise.allSettled`, copies each fulfilled result
into state and silently skips each rejected one (`allSettled` never throws,
so the `catch` branch that would set `error` is unreachable for fetch
failures), then clears the loading flags. -/
def loadScheduleData (st : ScheduleScreenState)
    (myEventsRes partnerEventsRes : SettledResult GetEventsResponse)
    (freeSlotsRes : SettledResult GetFreeSlotsResponse) :
    ScheduleScreenState :=
  let st1 := { st with error := none }
  let st2 := match myEventsRes with
    | .fulfilled v => { st1 with myEvents := v.events, myName := v.user_name }
    | .rejected _ => st1
  let st3 := match partnerEventsRes with
    | .fulfilled v => { st2 with partnerEvents := v.events, partnerName := v.user_name }
    | .rejected _ => st2
  let st4 := match freeSlotsRes with
    | .fulfilled v => { st3 with freeSlots := v.free_slots }
    | .rejected _ => st3
  { st4 with isLoading := false, refreshing := false }

/-- From `ScheduleScreen.tsx` (render): once loading is over, an empty
`freeSlots` list renders the card "No mutual free time found in the next
7 days". -/
def showsNoMutualFreeTimeMessage (st : ScheduleScreenState) : Prop :=
  st.isLoading = false ∧ st.freeSlots = []

instance (st : ScheduleScreenState) :
    Decidable (showsNoMutualFreeTimeMessage st) := by
  unfold showsNoMutualFreeTimeMessage; infer_instance

/-- From `ScheduleScreen.tsx` (render): the error card is shown exactly when
`error` is non-null. -/
def showsErrorCard (st : ScheduleScreenState) : Prop :=
  st.error ≠ none

instance (st : ScheduleScreenState) : Decidable (showsErrorCard st) := by
  unfold showsErrorCard; infer_instance

/-! ## Clipping lemmas -/

/-- Order used for sorting: `start` ascending, ties by `end` ascending;
pairwise comparison of starts only. -/
def startLE (a b : TimeInterval) : Prop := a.start ≤ b.start

/-- Separation of merged blocks: the first ends strictly before the second
starts. -/
def sepLT (a b : TimeInterval) : Prop := a.stop < b.start

theorem clipToWindow_eq_none_iff (w : QueryWindow) (i : TimeInterval) :
    clipToWindow w i = none ↔ (i.stop ≤ w.start ∨ w.stop ≤ i.start) := by
  unfold clipToWindow
  split <;> simp_all

theorem clipToWindow_eq_some (w : QueryWindow) (i j : TimeInterval)
    (h : clipToWindow w i = some j) :
    j = ⟨max i.start w.start, min i.stop w.stop⟩ ∧
      w.start < i.stop ∧ i.start < w.stop := by
  unfold clipToWindow at h
  split at h
  · simp at h
  · rename_i hcond
    push_neg at hcond
    simp at h
    exact ⟨h.symm, hcond.1, hcond.2⟩

theorem clipped_bounds {w : QueryWindow} {l : List TimeInterval}
    (hv : ∀ i ∈ l, i.start < i.stop) (hw : w.start < w.stop) :
    ∀ j ∈ l.filterMap (clipToWindow w),
      w.start ≤ j.start ∧ j.start < j.stop ∧ j.stop ≤ w.stop := by
  intro j hj
  rcases List.mem_filterMap.mp hj with ⟨i, hi, hclip⟩
  obtain ⟨hj', h1, h2⟩ := clipToWindow_eq_some w i j hclip
  have := hv i hi
  subst hj'
  refine ⟨le_max_right _ _, ?_, min_le_right _ _⟩
  simp only [max_lt_iff, lt_min_iff]
  omega

theorem busyAt_filterMap_clip (w : QueryWindow) (l : List TimeInterval) (x : Int) :
    busyAt (l.filterMap (clipToWindow w)) x ↔
      busyAt l x ∧ w.start ≤ x ∧ x < w.stop := by
  unfold busyAt
  constructor
  · rintro ⟨b, hb, hxb⟩
    rcases List.mem_filterMap.mp hb with ⟨i, hi, hclip⟩
    obtain ⟨hb', h1, h2⟩ := clipToWindow_eq_some w i b hclip
    subst hb'
    simp only [max_le_iff, lt_min_iff] at hxb
    exact ⟨⟨i, hi, by omega⟩, by omega, by omega⟩
  · rintro ⟨⟨i, hi, hxi⟩, hx1, hx2⟩
    refine ⟨⟨max i.start w.start, min i.stop w.stop⟩, ?_, ?_⟩
    · refine List.mem_filterMap.mpr ⟨i, hi, ?_⟩
      unfold clipToWindow
      split
      · rename_i hcond; exfalso; omega
      · rfl
    · simp only [max_le_iff, lt_min_iff]; omega

/-! ## Sorting lemmas -/

theorem intervalLE_total (a b : TimeInterval) : intervalLE a b ∨ intervalLE b a := by
  unfold intervalLE; omega

theorem intervalLE_trans {a b c : TimeInterval}
    (h1 : intervalLE a b) (h2 : intervalLE b c) : intervalLE a c := by
  unfold intervalLE at *; omega

theorem intervalLE_antisymm {a b : TimeInterval}
    (h1 : intervalLE a b) (h2 : intervalLE b a) : a = b := by
  obtain ⟨as, ae⟩ := a
  obtain ⟨bs, be⟩ := b
  unfold intervalLE at h1 h2
  simp only [TimeInterval.mk.injEq]
  simp only at h1 h2
  omega

instance : IsAntisymm TimeInterval intervalLE :=
  ⟨fun _ _ => intervalLE_antisymm⟩

theorem perm_insertSorted (x : TimeInterval) (l : List TimeInterval) :
    (insertSorted x l).Perm (x :: l) := by
  induction l with
  | nil => exact .refl _
  | cons y ys ih =>
    unfold insertSorted
    split
    · exact .refl _
    · exact .trans (.cons y ih) (.swap x y ys)

theorem sorted_insertSorted (x : TimeInterval) {l : List TimeInterval}
    (hs : l.Sorted intervalLE) : (insertSorted x l).Sorted intervalLE := by
  induction l with
  | nil => simp [insertSorted]
  | cons y ys ih =>
    rw [List.sorted_cons] at hs
    unfold insertSorted
    split
    · rename_i hxy
      rw [List.sorted_cons]
      refine ⟨?_, List.sorted_cons.mpr hs⟩
      intro b hb
      rcases List.mem_cons.mp hb with hb | hb
      · exact hb ▸ hxy
      · exact intervalLE_trans hxy (hs.1 b hb)
    · rename_i hxy
      have hyx : intervalLE y x := (intervalLE_total x y).resolve_left hxy
      rw [List.sorted_cons]
      refine ⟨?_, ih hs.2⟩
      intro b hb
      have hb' : b ∈ x :: ys := (perm_insertSorted x ys).subset hb
      rcases List.mem_cons.mp hb' with hb' | hb'
      · exact hb' ▸ hyx
      · exact hs.1 b hb'

theorem sortIntervals_perm (l : List TimeInterval) : (sortIntervals l).Perm l := by
  induction l with
  | nil => exact .refl _
  | cons x xs ih =>
    show (insertSorted x (sortIntervals xs)).Perm (x :: xs)
    exact .trans (perm_insertSorted x (sortIntervals xs)) (.cons x ih)

theorem sortIntervals_sorted (l : List TimeInterval) :
    (sortIntervals l).Sorted intervalLE := by
  induction l with
  | nil => simp [sortIntervals]
  | cons x xs ih => exact sorted_insertSorted x ih

theorem sortIntervals_congr {l l' : List TimeInterval} (h : l.Perm l') :
    sortIntervals l = sortIntervals l' :=
  List.eq_of_perm_of_sorted
    ((sortIntervals_perm l).trans (h.trans (sortIntervals_perm l').symm))
    (sortIntervals_sorted l) (sortIntervals_sorted l')

theorem sortIntervals_pairwise_startLE (l : List TimeInterval) :
    (sortIntervals l).Pairwise startLE :=
  (sortIntervals_sorted l).imp (fun h => by unfold intervalLE startLE at *; omega)

/-! ## Merge lemmas -/

theorem busyAt_cons {b : TimeInterval} {l : List TimeInterval} {x : Int} :
    busyAt (b :: l) x ↔ (b.start ≤ x ∧ x < b.stop) ∨ busyAt l x := by
  simp only [busyAt, List.mem_cons]
  constructor
  · rintro ⟨c, (rfl | hc), h⟩
    · exact .inl h
    · exact .inr ⟨c, hc, h⟩
  · rintro (h | ⟨c, hc, h⟩)
    · exact ⟨b, .inl rfl, h⟩
    · exact ⟨c, .inr hc, h⟩

theorem busyAt_perm {l l' : List TimeInterval} (h : l.Perm l') (x : Int) :
    busyAt l x ↔ busyAt l' x := by
  unfold busyAt
  exact ⟨fun ⟨b, hb, hx⟩ => ⟨b, h.subset hb, hx⟩,
    fun ⟨b, hb, hx⟩ => ⟨b, h.symm.subset hb, hx⟩⟩

theorem mergeGo_start_le {cur : TimeInterval} {l : List TimeInterval}
    (hs : l.Pairwise startLE) (hcur : ∀ y ∈ l, cur.start ≤ y.start) :
    ∀ x ∈ mergeGo cur l, cur.start ≤ x.start := by
  induction l generalizing cur with
  | nil =>
    intro x hx
    simp only [mergeGo, List.mem_singleton] at hx
    exact hx ▸ le_refl _
  | cons n rest ih =>
    intro x hx
    rw [List.pairwise_cons] at hs
    unfold mergeGo at hx
    split at hx
    · exact @ih ⟨cur.start, max cur.stop n.stop⟩ hs.2
        (fun y hy => hcur y (.tail n hy)) x hx
    · rcases List.mem_cons.mp hx with rfl | hx
      · exact le_refl _
      · exact le_trans (hcur n (.head rest)) (ih hs.2 (fun y hy => hs.1 y hy) x hx)

theorem mergeGo_sep {cur : TimeInterval} {l : List TimeInterval}
    (hs : l.Pairwise startLE) (hcur : ∀ y ∈ l, cur.start ≤ y.start) :
    (mergeGo cur l).Pairwise sepLT := by
  induction l generalizing cur with
  | nil => simp [mergeGo]
  | cons n rest ih =>
    rw [List.pairwise_cons] at hs
    unfold mergeGo
    split
    · exact ih hs.2 (fun y hy => hcur y (.tail n hy))
    · rename_i hclose
      rw [List.pairwise_cons]
      refine ⟨?_, ih hs.2 (fun y hy => hs.1 y hy)⟩
      intro x hx
      have hnx : n.start ≤ x.start :=
        mergeGo_start_le hs.2 (fun y hy => hs.1 y hy) x hx
      unfold sepLT
      omega

theorem mergeGo_ne {cur : TimeInterval} {l : List TimeInterval}
    (hc : cur.start < cur.stop) (hl : ∀ y ∈ l, y.start < y.stop) :
    ∀ x ∈ mergeGo cur l, x.start < x.stop := by
  induction l generalizing cur with
  | nil =>
    intro x hx
    simp only [mergeGo, List.mem_singleton] at hx
    exact hx ▸ hc
  | cons n rest ih =>
    intro x hx
    unfold mergeGo at hx
    split at hx
    · refine ih ?_ (fun y hy => hl y (.tail n hy)) x hx
      simp only
      omega
    · rcases List.mem_cons.mp hx with rfl | hx
      · exact hc
      · exact ih (hl n (.head rest)) (fun y hy => hl y (.tail n hy)) x hx

theorem mergeGo_bounds {w : QueryWindow} {cur : TimeInterval}
    {l : List TimeInterval}
    (hcw : w.start ≤ cur.start ∧ cur.stop ≤ w.stop)
    (hlw : ∀ y ∈ l, w.start ≤ y.start ∧ y.stop ≤ w.stop) :
    ∀ x ∈ mergeGo cur l, w.start ≤ x.start ∧ x.stop ≤ w.stop := by
  induction l generalizing cur with
  | nil =>
    intro x hx
    simp only [mergeGo, List.mem_singleton] at hx
    exact hx ▸ hcw
  | cons n rest ih =>
    intro x hx
    unfold mergeGo at hx
    split at hx
    · refine ih ?_ (fun y hy => hlw y (.tail n hy)) x hx
      have := hlw n (.head rest)
      simp only
      omega
    · rcases List.mem_cons.mp hx with rfl | hx
      · exact hcw
      · exact ih (hlw n (.head rest)) (fun y hy => hlw y (.tail n hy)) x hx

theorem mergeGo_busyAt {cur : TimeInterval} {l : List TimeInterval}
    (hs : l.Pairwise startLE) (hcur : ∀ y ∈ l, cur.start ≤ y.start) (x : Int) :
    busyAt (mergeGo cur l) x ↔ (cur.start ≤ x ∧ x < cur.stop) ∨ busyAt l x := by
  induction l generalizing cur with
  | nil =>
    unfold mergeGo
    rw [busyAt_cons]
  | cons n rest ih =>
    rw [List.pairwise_cons] at hs
    unfold mergeGo
    split
    · rename_i hmerge
      rw [@ih ⟨cur.start, max cur.stop n.stop⟩ hs.2
        (fun y hy => hcur y (.tail n hy)), busyAt_cons]
      have h1 : cur.start ≤ n.start := hcur n (.head rest)
      show (cur.start ≤ x ∧ x < max cur.stop n.stop) ∨ busyAt rest x ↔ _
      constructor
      · rintro (h | hB)
        · by_cases h' : x < cur.stop
          · exact .inl ⟨h.1, h'⟩
          · exact .inr (.inl ⟨by omega, by omega⟩)
        · exact .inr (.inr hB)
      · rintro (h | h | hB)
        · exact .inl ⟨h.1, by omega⟩
        · exact .inl ⟨by omega, by omega⟩
        · exact .inr hB
    · rename_i hclose
      rw [busyAt_cons, ih hs.2 (fun y hy => hs.1 y hy), busyAt_cons]

theorem mergeBlocks_sep {l : List TimeInterval} (hs : l.Pairwise startLE) :
    (mergeBlocks l).Pairwise sepLT := by
  cases l with
  | nil => simp [mergeBlocks]
  | cons b rest =>
    rw [List.pairwise_cons] at hs
    exact mergeGo_sep hs.2 (fun y hy => hs.1 y hy)

theorem mergeBlocks_ne {l : List TimeInterval}
    (hl : ∀ y ∈ l, y.start < y.stop) :
    ∀ x ∈ mergeBlocks l, x.start < x.stop := by
  cases l with
  | nil => simp [mergeBlocks]
  | cons b rest =>
    exact mergeGo_ne (hl b (.head rest)) (fun y hy => hl y (.tail b hy))

theorem mergeBlocks_bounds {w : QueryWindow} {l : List TimeInterval}
    (hlw : ∀ y ∈ l, w.start ≤ y.start ∧ y.stop ≤ w.stop) :
    ∀ x ∈ mergeBlocks l, w.start ≤ x.start ∧ x.stop ≤ w.stop := by
  cases l with
  | nil => simp [mergeBlocks]
  | cons b rest =>
    exact mergeGo_bounds (hlw b (.head rest)) (fun y hy => hlw y (.tail b hy))

theorem mergeBlocks_busyAt {l : List TimeInterval} (hs : l.Pairwise startLE)
    (x : Int) : busyAt (mergeBlocks l) x ↔ busyAt l x := by
  cases l with
  | nil => simp [mergeBlocks]
  | cons b rest =>
    rw [List.pairwise_cons] at hs
    rw [show mergeBlocks (b :: rest) = mergeGo b rest from rfl,
      mergeGo_busyAt hs.2 (fun y hy => hs.1 y hy), busyAt_cons]

/-! ## Merged-timeline invariants -/

theorem busyAt_nil (x : Int) : ¬ busyAt [] x := by simp [busyAt]

theorem mergedTimeline_sep (a b : List TimeInterval) (w : QueryWindow) :
    (mergedTimeline a b w).Pairwise sepLT :=
  mergeBlocks_sep (sortIntervals_pairwise_startLE _)

theorem mergedTimeline_ne {a b : List TimeInterval} {w : QueryWindow}
    (hv : ∀ i ∈ a ++ b, i.start < i.stop) (hw : w.start < w.stop) :
    ∀ x ∈ mergedTimeline a b w, x.start < x.stop :=
  mergeBlocks_ne fun y hy =>
    (clipped_bounds hv hw y ((sortIntervals_perm _).subset hy)).2.1

theorem mergedTimeline_bounds {a b : List TimeInterval} {w : QueryWindow}
    (hv : ∀ i ∈ a ++ b, i.start < i.stop) (hw : w.start < w.stop) :
    ∀ x ∈ mergedTimeline a b w, w.start ≤ x.start ∧ x.stop ≤ w.stop :=
  mergeBlocks_bounds fun y hy =>
    ⟨(clipped_bounds hv hw y ((sortIntervals_perm _).subset hy)).1,
     (clipped_bounds hv hw y ((sortIntervals_perm _).subset hy)).2.2⟩

theorem mergedTimeline_busyAt (a b : List TimeInterval) (w : QueryWindow)
    (x : Int) :
    busyAt (mergedTimeline a b w) x ↔
      busyAt (a ++ b) x ∧ w.start ≤ x ∧ x < w.stop := by
  unfold mergedTimeline
  rw [mergeBlocks_busyAt (sortIntervals_pairwise_startLE _),
    busyAt_perm (sortIntervals_perm _), busyAt_filterMap_clip]

/-! ## Gap extraction: the central characterization -/

theorem timeInterval_eq_mk_iff (g : TimeInterval) (c d : Int) :
    g = ⟨c, d⟩ ↔ g.start = c ∧ g.stop = d := by
  obtain ⟨a, b⟩ := g
  simp [TimeInterval.mk.injEq]

theorem gapsGo_mem_iff {w : QueryWindow} {cursor : Int}
    {blocks : List TimeInterval}
    (hcw : w.start ≤ cursor)
    (hsep : blocks.Pairwise sepLT)
    (hne : ∀ b ∈ blocks, b.start < b.stop)
    (hwin : ∀ b ∈ blocks, w.start ≤ b.start ∧ b.stop ≤ w.stop)
    (hcur : ∀ b ∈ blocks, cursor ≤ b.start)
    (g : TimeInterval) :
    g ∈ gapsGo w cursor blocks ↔
      (g.start < g.stop ∧ cursor ≤ g.start ∧ g.stop ≤ w.stop ∧
       (∀ x, g.start ≤ x → x < g.stop → ¬ busyAt blocks x) ∧
       (g.start = cursor ∨ busyAt blocks (g.start - 1)) ∧
       (g.stop = w.stop ∨ busyAt blocks g.stop)) := by
  induction blocks generalizing cursor with
  | nil =>
    simp only [gapsGo]
    split
    · rename_i hlt
      rw [List.mem_singleton, timeInterval_eq_mk_iff]
      constructor
      · rintro ⟨h1, h2⟩
        exact ⟨by omega, by omega, by omega, fun x _ _ => busyAt_nil x,
          .inl h1, .inl h2⟩
      · rintro ⟨_, _, _, _, (h1 | h1), (h2 | h2)⟩
        · exact ⟨h1, h2⟩
        · exact absurd h2 (busyAt_nil _)
        · exact absurd h1 (busyAt_nil _)
        · exact absurd h1 (busyAt_nil _)
    · rename_i hge
      simp only [List.not_mem_nil, false_iff]
      rintro ⟨h1, h2, h3, _, _, _⟩
      omega
  | cons b rest ih =>
    rw [List.pairwise_cons] at hsep
    have hb_ne := hne b (.head rest)
    have hb_win := hwin b (.head rest)
    have hb_cur := hcur b (.head rest)
    have hmax : max cursor b.stop = b.stop := by omega
    simp only [gapsGo, hmax, List.mem_append]
    have ih' := ih (by omega) hsep.2
      (fun y hy => hne y (.tail b hy)) (fun y hy => hwin y (.tail b hy))
      (fun y hy => le_of_lt (hsep.1 y hy))
    rw [ih']
    constructor
    · rintro (hg | ⟨h1, h2, h3, h4, h5, h6⟩)
      · -- the initial gap [cursor, b.start)
        have hg' : cursor < b.start ∧ g.start = cursor ∧ g.stop = b.start := by
          by_cases hc : cursor < b.start
          · rw [if_pos hc, List.mem_singleton, timeInterval_eq_mk_iff] at hg
            exact ⟨hc, hg⟩
          · rw [if_neg hc] at hg
            exact absurd hg (List.not_mem_nil g)
        obtain ⟨hc, hgs, hge⟩ := hg'
        refine ⟨by omega, by omega, by omega, ?_, .inl hgs,
          .inr ⟨b, .head rest, by omega, by omega⟩⟩
        intro x hx1 hx2
        rw [busyAt_cons]
        rintro (hxb | ⟨c, hc', hxc⟩)
        · omega
        · have := hsep.1 c hc'
          unfold sepLT at this
          omega
      · -- a gap coming from the recursive call, to the right of b
        refine ⟨h1, by omega, h3, ?_, ?_, ?_⟩
        · intro x hx1 hx2
          rw [busyAt_cons]
          rintro (hxb | hxrest)
          · omega
          · exact h4 x hx1 hx2 hxrest
        · rcases h5 with h5 | h5
          · exact .inr (busyAt_cons.mpr (.inl ⟨by omega, by omega⟩))
          · exact .inr (busyAt_cons.mpr (.inr h5))
        · rcases h6 with h6 | h6
          · exact .inl h6
          · exact .inr (busyAt_cons.mpr (.inr h6))
    · rintro ⟨h1, h2, h3, h4, h5, h6⟩
      have hdisj : g.stop ≤ b.start ∨ b.stop ≤ g.start := by
        by_contra hcon
        push_neg at hcon
        refine h4 (max g.start b.start) (by omega) (by omega) ?_
        exact busyAt_cons.mpr (.inl ⟨by omega, by omega⟩)
      rcases hdisj with hB | hA
      · -- g lies before b: it must be exactly [cursor, b.start)
        left
        have hstop : g.stop = b.start := by
          rcases h6 with h6 | h6
          · omega
          · rcases busyAt_cons.mp h6 with hxb | ⟨c, hc', hxc⟩
            · omega
            · have := hsep.1 c hc'
              unfold sepLT at this
              omega
        have hstart : g.start = cursor := by
          rcases h5 with h5 | h5
          · exact h5
          · rcases busyAt_cons.mp h5 with hxb | ⟨c, hc', hxc⟩
            · omega
            · have := hsep.1 c hc'
              unfold sepLT at this
              omega
        rw [if_pos (by omega), List.mem_singleton, timeInterval_eq_mk_iff]
        exact ⟨hstart, hstop⟩
      · -- g lies after b: it comes from the recursive call
        right
        refine ⟨h1, hA, h3, ?_, ?_, ?_⟩
        · intro x hx1 hx2 hbusy
          exact h4 x hx1 hx2 (busyAt_cons.mpr (.inr hbusy))
        · rcases h5 with h5 | h5
          · omega
          · rcases busyAt_cons.mp h5 with hxb | hrest
            · left
              omega
            · exact .inr hrest
        · rcases h6 with h6 | h6
          · exact .inl h6
          · rcases busyAt_cons.mp h6 with hxb | hrest
            · omega
            · exact .inr hrest

theorem gapsGo_pairwise {w : QueryWindow} {cursor : Int}
    {blocks : List TimeInterval}
    (hcw : w.start ≤ cursor)
    (hsep : blocks.Pairwise sepLT)
    (hne : ∀ b ∈ blocks, b.start < b.stop)
    (hwin : ∀ b ∈ blocks, w.start ≤ b.start ∧ b.stop ≤ w.stop)
    (hcur : ∀ b ∈ blocks, cursor ≤ b.start) :
    (gapsGo w cursor blocks).Pairwise (fun g1 g2 => g1.stop ≤ g2.start) := by
  induction blocks generalizing cursor with
  | nil =>
    simp only [gapsGo]
    split <;> simp
  | cons b rest ih =>
    rw [List.pairwise_cons] at hsep
    have hb_ne := hne b (.head rest)
    have hb_win := hwin b (.head rest)
    have hb_cur := hcur b (.head rest)
    have hmax : max cursor b.stop = b.stop := by omega
    simp only [gapsGo, hmax]
    rw [List.pairwise_append]
    refine ⟨?_, ih (by omega) hsep.2
      (fun y hy => hne y (.tail b hy)) (fun y hy => hwin y (.tail b hy))
      (fun y hy => le_of_lt (hsep.1 y hy)), ?_⟩
    · split <;> simp
    · intro g1 hg1 g2 hg2
      have hg1' : g1.stop = b.start := by
        by_cases hc : cursor < b.start
        · rw [if_pos hc, List.mem_singleton, timeInterval_eq_mk_iff] at hg1
          exact hg1.2
        · rw [if_neg hc] at hg1
          exact absurd hg1 (List.not_mem_nil g1)
      have hg2' := (gapsGo_mem_iff (by omega) hsep.2
        (fun y hy => hne y (.tail b hy)) (fun y hy => hwin y (.tail b hy))
        (fun y hy => le_of_lt (hsep.1 y hy)) g2).mp hg2
      have : b.stop ≤ g2.start := hg2'.2.1
      omega

theorem extractGaps_mem_iff {w : QueryWindow} {blocks : List TimeInterval}
    (hsep : blocks.Pairwise sepLT)
    (hne : ∀ b ∈ blocks, b.start < b.stop)
    (hwin : ∀ b ∈ blocks, w.start ≤ b.start ∧ b.stop ≤ w.stop)
    (g : TimeInterval) :
    g ∈ extractGaps w blocks ↔ isMaximalGap w blocks g := by
  unfold extractGaps isMaximalGap freeAt
  rw [gapsGo_mem_iff (le_refl _) hsep hne hwin (fun b hb => (hwin b hb).1) g]
  constructor
  · rintro ⟨h1, h2, h3, h4, h5, h6⟩
    refine ⟨h1, fun x hx1 hx2 => ⟨by omega, by omega, h4 x hx1 hx2⟩, ?_, ?_⟩
    · rintro ⟨k1, k2, k3⟩
      rcases h5 with h5 | h5
      · omega
      · exact k3 h5
    · rintro ⟨k1, k2, k3⟩
      rcases h6 with h6 | h6
      · omega
      · exact k3 h6
  · rintro ⟨h1, h2, h3, h4⟩
    obtain ⟨hs1, hs2, hs3⟩ := h2 g.start (le_refl _) h1
    obtain ⟨he1, he2, he3⟩ := h2 (g.stop - 1) (by omega) (by omega)
    refine ⟨h1, hs1, by omega, fun x hx1 hx2 => (h2 x hx1 hx2).2.2, ?_, ?_⟩
    · by_cases hbusy : busyAt blocks (g.start - 1)
      · exact .inr hbusy
      · left
        by_contra hne'
        exact h3 ⟨by omega, by omega, hbusy⟩
    · by_cases hbusy : busyAt blocks g.stop
      · exact .inr hbusy
      · left
        by_contra hne'
        exact h4 ⟨by omega, by omega, hbusy⟩

/-! ## Engine-level helper lemmas -/

theorem durationHoursOf_pos {i : TimeInterval} (h : i.start < i.stop) :
    0 < durationHoursOf i := by
  rw [durationHoursOf_eq_div]
  apply div_pos
  · exact_mod_cast by omega
  · norm_num

theorem durationHoursOf_nonneg {i : TimeInterval} (h : i.start < i.stop) :
    0 ≤ durationHoursOf i :=
  le_of_lt (durationHoursOf_pos h)

theorem computeFreeSlots_ok_inversion {a b : List TimeInterval}
    {w : QueryWindow} {t : ℚ} {res : List FreeSlot}
    (h : computeFreeSlots a b w t = .ok res) :
    (∀ i ∈ a ++ b, i.start < i.stop) ∧ w.start < w.stop ∧ 0 ≤ t ∧
      res = ((extractGaps w (mergedTimeline a b w)).map mkFreeSlot).filter
        (fun s => t ≤ s.durationHours) := by
  unfold computeFreeSlots at h
  split at h
  · exact absurd h (by simp)
  split at h
  · exact absurd h (by simp)
  split at h
  · exact absurd h (by simp)
  rename_i h1 h2 h3
  rw [not_not] at h1
  refine ⟨h1, by omega, by exact le_of_not_lt h3, ?_⟩
  simpa using h.symm

theorem mem_computeFreeSlots_result {a b : List TimeInterval}
    {w : QueryWindow} {t : ℚ} {res : List FreeSlot}
    (h : computeFreeSlots a b w t = .ok res) (s : FreeSlot) :
    s ∈ res ↔ ∃ g, isMaximalGap w (mergedTimeline a b w) g ∧
      t ≤ durationHoursOf g ∧ s = mkFreeSlot g := by
  obtain ⟨hv, hw, ht, hres⟩ := computeFreeSlots_ok_inversion h
  have hsep := mergedTimeline_sep a b w
  have hne := mergedTimeline_ne hv hw
  have hwin := mergedTimeline_bounds hv hw
  subst hres
  rw [List.mem_filter, List.mem_map]
  constructor
  · rintro ⟨⟨g, hg, rfl⟩, hpred⟩
    have hmax := (extractGaps_mem_iff hsep hne hwin g).mp hg
    refine ⟨g, hmax, ?_, rfl⟩
    simpa [mkFreeSlot] using of_decide_eq_true hpred
  · rintro ⟨g, hmax, hht, rfl⟩
    refine ⟨⟨g, (extractGaps_mem_iff hsep hne hwin g).mpr hmax, rfl⟩, ?_⟩
    simpa [mkFreeSlot] using decide_eq_true hht

theorem extractGaps_mem_bounds {w : QueryWindow} {blocks : List TimeInterval}
    (hsep : blocks.Pairwise sepLT)
    (hne : ∀ b ∈ blocks, b.start < b.stop)
    (hwin : ∀ b ∈ blocks, w.start ≤ b.start ∧ b.stop ≤ w.stop) :
    ∀ g ∈ extractGaps w blocks,
      w.start ≤ g.start ∧ g.start < g.stop ∧ g.stop ≤ w.stop := by
  intro g hg
  have := (gapsGo_mem_iff (le_refl _) hsep hne hwin
    (fun b hb => (hwin b hb).1) g).mp hg
  exact ⟨this.2.1, this.1, this.2.2.1⟩

theorem extractGaps_pairwise {w : QueryWindow} {blocks : List TimeInterval}
    (hsep : blocks.Pairwise sepLT)
    (hne : ∀ b ∈ blocks, b.start < b.stop)
    (hwin : ∀ b ∈ blocks, w.start ≤ b.start ∧ b.stop ≤ w.stop) :
    (extractGaps w blocks).Pairwise
      (fun g1 g2 => g1.start < g2.start ∧ g1.stop ≤ g2.start) := by
  have hpw := gapsGo_pairwise (le_refl w.start) hsep hne hwin
    (fun b hb => (hwin b hb).1)
  refine List.Pairwise.imp_of_mem ?_ hpw
  intro g1 g2 h1 h2 hle
  have hb1 := extractGaps_mem_bounds hsep hne hwin g1 h1
  exact ⟨by omega, hle⟩

/-! ## Claim theorems -/

/-- C1: for every pair of busy collections, window and threshold on which the
engine succeeds, the returned slots are exactly the maximal gaps of the merged
busy timeline whose duration meets the threshold — soundness (every returned
slot has `durationHours ≥ minDurationHours`), completeness (every maximal gap
of the merged timeline with sufficient duration is returned), exactness (every
returned slot is such a gap), and the threshold defaults to 2.0 hours when
omitted. -/
theorem C1_computeFreeSlots_exactly_maximal_gaps
    (a b : List TimeInterval) (w : QueryWindow) (t : ℚ) (res : List FreeSlot)
    (h : computeFreeSlots a b w t = .ok res) :
    (∀ s ∈ res, t ≤ s.durationHours) ∧
    (∀ g, isMaximalGap w (mergedTimeline a b w) g → t ≤ durationHoursOf g →
      mkFreeSlot g ∈ res) ∧
    (∀ s ∈ res, ∃ g, isMaximalGap w (mergedTimeline a b w) g ∧
      t ≤ durationHoursOf g ∧ s = mkFreeSlot g) ∧
    computeFreeSlotsDefault a b w = computeFreeSlots a b w 2 := by
  refine ⟨?_, ?_, ?_, rfl⟩
  · intro s hs
    obtain ⟨g, hg, hht, rfl⟩ := (mem_computeFreeSlots_result h s).mp hs
    exact hht
  · intro g hg hht
    exact (mem_computeFreeSlots_result h _).mpr ⟨g, hg, hht, rfl⟩
  · intro s hs
    exact (mem_computeFreeSlots_result h s).mp hs

/-- Witness for C1 at the spec's second concrete scenario: A busy 9:00–10:00
and 14:00–15:00, B busy 10:00–12:00 and 16:00–17:00, window 9:00–18:00,
threshold 2 hours, result exactly the 12:00–14:00 slot. -/
theorem C1_witness :
    (∀ s ∈ [(⟨43200, 50400, 2⟩ : FreeSlot)], (2 : ℚ) ≤ s.durationHours) ∧
    (∀ g, isMaximalGap ⟨32400, 64800⟩
        (mergedTimeline [⟨32400, 36000⟩, ⟨50400, 54000⟩]
          [⟨36000, 43200⟩, ⟨57600, 61200⟩] ⟨32400, 64800⟩) g →
      (2 : ℚ) ≤ durationHoursOf g →
      mkFreeSlot g ∈ [(⟨43200, 50400, 2⟩ : FreeSlot)]) ∧
    (∀ s ∈ [(⟨43200, 50400, 2⟩ : FreeSlot)],
      ∃ g, isMaximalGap ⟨32400, 64800⟩
        (mergedTimeline [⟨32400, 36000⟩, ⟨50400, 54000⟩]
          [⟨36000, 43200⟩, ⟨57600, 61200⟩] ⟨32400, 64800⟩) g ∧
        (2 : ℚ) ≤ durationHoursOf g ∧ s = mkFreeSlot g) ∧
    computeFreeSlotsDefault [⟨32400, 36000⟩, ⟨50400, 54000⟩]
        [⟨36000, 43200⟩, ⟨57600, 61200⟩] ⟨32400, 64800⟩ =
      computeFreeSlots [⟨32400, 36000⟩, ⟨50400, 54000⟩]
        [⟨36000, 43200⟩, ⟨57600, 61200⟩] ⟨32400, 64800⟩ 2 :=
  C1_computeFreeSlots_exactly_maximal_gaps
    [⟨32400, 36000⟩, ⟨50400, 54000⟩] [⟨36000, 43200⟩, ⟨57600, 61200⟩]
    ⟨32400, 64800⟩ 2 [⟨43200, 50400, 2⟩] (by decide)

/-- C2: on every valid input on which no maximal gap of the merged timeline
meets the threshold, the engine returns the empty list and raises no error —
"no mutual free time" is a non-error outcome distinct from the three
validation failures. -/
theorem C2_no_free_time_is_not_an_error
    (a b : List TimeInterval) (w : QueryWindow) (t : ℚ)
    (hv : ∀ i ∈ a ++ b, i.start < i.stop) (hw : w.start < w.stop) (ht : 0 ≤ t)
    (hnone : ∀ g, isMaximalGap w (mergedTimeline a b w) g →
      durationHoursOf g < t) :
    computeFreeSlots a b w t = .ok [] ∧
      ∀ e : EngineError, computeFreeSlots a b w t ≠ .error e := by
  have hok : computeFreeSlots a b w t = .ok [] := by
    unfold computeFreeSlots
    rw [if_neg (not_not_intro hv), if_neg (by omega), if_neg (not_lt.mpr ht)]
    congr 1
    rw [List.filter_eq_nil_iff]
    rintro s hs
    rw [List.mem_map] at hs
    obtain ⟨g, hg, rfl⟩ := hs
    have hmax := (extractGaps_mem_iff (mergedTimeline_sep a b w)
      (mergedTimeline_ne hv hw) (mergedTimeline_bounds hv hw) g).mp hg
    have := hnone g hmax
    simp only [decide_eq_true_eq]
    show ¬ t ≤ durationHoursOf g
    exact not_le.mpr this
  exact ⟨hok, fun e he => by rw [hok] at he; exact Except.noConfusion he⟩

/-- Witness for C2: one participant busy for the whole one-hour window, so
the whole window is covered and no gap exists at all; the engine returns the
empty list rather than an error. -/
theorem C2_witness :
    computeFreeSlots [⟨0, 3600⟩] [] ⟨0, 3600⟩ 2 = .ok [] ∧
      ∀ e : EngineError,
        computeFreeSlots [⟨0, 3600⟩] [] ⟨0, 3600⟩ 2 ≠ .error e := by
  refine C2_no_free_time_is_not_an_error [⟨0, 3600⟩] [] ⟨0, 3600⟩ 2
    (by decide) (by decide) (by decide) ?_
  intro g hg
  have hmt : mergedTimeline [⟨0, 3600⟩] [] ⟨0, 3600⟩ = [⟨0, 3600⟩] := by decide
  rw [hmt] at hg
  obtain ⟨h1, h2, _, _⟩ := hg
  obtain ⟨k1, k2, k3⟩ := h2 g.start (le_refl _) h1
  exact absurd ⟨⟨0, 3600⟩, .head _, k1, k2⟩ k3

/-- C3: the engine validates all inputs before merging and fails exactly on
the three validation conditions — a busy interval with `start ≥ end` yields
`InvalidIntervalError`, a window with `start ≥ end` yields
`InvalidWindowError` (when the intervals are well-formed), a negative
threshold yields `InvalidThresholdError` (when intervals and window are
well-formed) — and on success it never propagates a non-positive duration. -/
theorem C3_validation_errors
    (a b : List TimeInterval) (w : QueryWindow) (t : ℚ) :
    ((∃ e, computeFreeSlots a b w t = .error e) ↔
      ((∃ i ∈ a ++ b, i.stop ≤ i.start) ∨ w.stop ≤ w.start ∨ t < 0)) ∧
    ((∃ i ∈ a ++ b, i.stop ≤ i.start) →
      computeFreeSlots a b w t = .error .invalidIntervalError) ∧
    ((∀ i ∈ a ++ b, i.start < i.stop) → w.stop ≤ w.start →
      computeFreeSlots a b w t = .error .invalidWindowError) ∧
    ((∀ i ∈ a ++ b, i.start < i.stop) → w.start < w.stop → t < 0 →
      computeFreeSlots a b w t = .error .invalidThresholdError) ∧
    (∀ res, computeFreeSlots a b w t = .ok res →
      ∀ s ∈ res, 0 < s.durationHours ∧ s.start < s.stop) := by
  have hbad : (∃ i ∈ a ++ b, i.stop ≤ i.start) →
      computeFreeSlots a b w t = .error .invalidIntervalError := by
    rintro ⟨i, hi, hile⟩
    unfold computeFreeSlots
    rw [if_pos (fun hall => absurd (hall i hi) (by omega))]
  have hwin : (∀ i ∈ a ++ b, i.start < i.stop) → w.stop ≤ w.start →
      computeFreeSlots a b w t = .error .invalidWindowError := by
    intro hall hle
    unfold computeFreeSlots
    rw [if_neg (not_not_intro hall), if_pos hle]
  have hthr : (∀ i ∈ a ++ b, i.start < i.stop) → w.start < w.stop → t < 0 →
      computeFreeSlots a b w t = .error .invalidThresholdError := by
    intro hall hlt ht
    unfold computeFreeSlots
    rw [if_neg (not_not_intro hall), if_neg (by omega), if_pos ht]
  refine ⟨⟨?_, ?_⟩, hbad, hwin, hthr, ?_⟩
  · rintro ⟨e, he⟩
    by_contra hcon
    push_neg at hcon
    obtain ⟨hc1, hc2, hc3⟩ := hcon
    have h1 : ∀ i ∈ a ++ b, i.start < i.stop := fun i hi => by
      have := hc1 i hi; omega
    unfold computeFreeSlots at he
    rw [if_neg (not_not_intro h1), if_neg (by omega),
      if_neg (not_lt.mpr hc3)] at he
    exact Except.noConfusion he
  · rintro (h | h | h)
    · exact ⟨_, hbad h⟩
    · by_cases hall : ∀ i ∈ a ++ b, i.start < i.stop
      · exact ⟨_, hwin hall h⟩
      · rw [not_forall] at hall
        obtain ⟨i, hi⟩ := hall
        rw [Classical.not_imp] at hi
        exact ⟨_, hbad ⟨i, hi.1, by omega⟩⟩
    · by_cases hall : ∀ i ∈ a ++ b, i.start < i.stop
      · by_cases hw : w.stop ≤ w.start
        · exact ⟨_, hwin hall hw⟩
        · exact ⟨_, hthr hall (by omega) h⟩
      · rw [not_forall] at hall
        obtain ⟨i, hi⟩ := hall
        rw [Classical.not_imp] at hi
        exact ⟨_, hbad ⟨i, hi.1, by omega⟩⟩
  · intro res hres s hs
    obtain ⟨g, hg, _, rfl⟩ := (mem_computeFreeSlots_result hres s).mp hs
    exact ⟨durationHoursOf_pos hg.1, hg.1⟩

/-- Witness for C3: a zero-length busy interval (the spec's scenario 4) is
rejected with `InvalidIntervalError`. -/
theorem C3_witness :
    computeFreeSlots [⟨18000, 18000⟩] [] ⟨0, 36000⟩ 2 =
      .error .invalidIntervalError :=
  (C3_validation_errors [⟨18000, 18000⟩] [] ⟨0, 36000⟩ 2).2.1
    ⟨⟨18000, 18000⟩, by simp, by decide⟩

/-- C4: every successful result is in strictly increasing `start` order,
pairwise disjoint (each slot ends no later than the next begins), and every
slot lies inside the query window. -/
theorem C4_sorted_disjoint_within_window
    (a b : List TimeInterval) (w : QueryWindow) (t : ℚ) (res : List FreeSlot)
    (h : computeFreeSlots a b w t = .ok res) :
    res.Pairwise (fun s1 s2 => s1.start < s2.start ∧ s1.stop ≤ s2.start) ∧
    ∀ s ∈ res, w.start ≤ s.start ∧ s.stop ≤ w.stop := by
  obtain ⟨hv, hw, ht, hres⟩ := computeFreeSlots_ok_inversion h
  have hsep := mergedTimeline_sep a b w
  have hne := mergedTimeline_ne hv hw
  have hwin := mergedTimeline_bounds hv hw
  subst hres
  constructor
  · exact List.Pairwise.filter _
      (List.Pairwise.map mkFreeSlot (fun g1 g2 hg => hg)
        (extractGaps_pairwise hsep hne hwin))
  · intro s hs
    rw [List.mem_filter, List.mem_map] at hs
    obtain ⟨⟨g, hg, rfl⟩, _⟩ := hs
    have hb := extractGaps_mem_bounds hsep hne hwin g hg
    exact ⟨hb.1, hb.2.2⟩

/-- Witness for C4 on a two-slot result: one busy block 10:00–12:00 in a
9:00–17:00 window with threshold 1 hour yields the slots 9:00–10:00 and
12:00–17:00, sorted, disjoint and inside the window. -/
theorem C4_witness :
    ([(⟨32400, 36000, 1⟩ : FreeSlot), ⟨43200, 61200, 5⟩].Pairwise
      (fun s1 s2 => s1.start < s2.start ∧ s1.stop ≤ s2.start)) ∧
    ∀ s ∈ [(⟨32400, 36000, 1⟩ : FreeSlot), ⟨43200, 61200, 5⟩],
      (⟨32400, 61200⟩ : QueryWindow).start ≤ s.start ∧
        s.stop ≤ (⟨32400, 61200⟩ : QueryWindow).stop :=
  C4_sorted_disjoint_within_window [⟨36000, 43200⟩] [] ⟨32400, 61200⟩ 1
    [⟨32400, 36000, 1⟩, ⟨43200, 61200, 5⟩] (by decide)

/-- C5: the engine is deterministic — repeated calls on the same input give
the same output — and order-insensitive: permuting either busy collection
(including permutations that exercise the equal-`start` tie-break) leaves the
output unchanged. -/
theorem C5_deterministic_and_order_insensitive
    (a a' b b' : List TimeInterval) (w : QueryWindow) (t : ℚ)
    (ha : a'.Perm a) (hb : b'.Perm b) :
    computeFreeSlots a b w t = computeFreeSlots a b w t ∧
    computeFreeSlots a' b' w t = computeFreeSlots a b w t := by
  refine ⟨rfl, ?_⟩
  have hperm : (a' ++ b').Perm (a ++ b) := ha.append hb
  have hmt : mergedTimeline a' b' w = mergedTimeline a b w := by
    unfold mergedTimeline
    rw [sortIntervals_congr (hperm.filterMap _)]
  by_cases h1 : ∀ i ∈ a ++ b, i.start < i.stop
  · have h1' : ∀ i ∈ a' ++ b', i.start < i.stop :=
      fun i hi => h1 i (hperm.subset hi)
    unfold computeFreeSlots
    rw [if_neg (not_not_intro h1'), if_neg (not_not_intro h1), hmt]
  · have h1' : ¬ ∀ i ∈ a' ++ b', i.start < i.stop :=
      fun hc => h1 fun i hi => hc i (hperm.symm.subset hi)
    unfold computeFreeSlots
    rw [if_pos h1', if_pos h1]

/-- Witness for C5: swapping two busy intervals that share the same `start`
(exercising the `end`-ascending tie-break) leaves the result unchanged. -/
theorem C5_witness :
    computeFreeSlots [⟨0, 3600⟩, ⟨0, 7200⟩] [] ⟨0, 36000⟩ 2 =
      computeFreeSlots [⟨0, 3600⟩, ⟨0, 7200⟩] [] ⟨0, 36000⟩ 2 ∧
    computeFreeSlots [⟨0, 7200⟩, ⟨0, 3600⟩] [] ⟨0, 36000⟩ 2 =
      computeFreeSlots [⟨0, 3600⟩, ⟨0, 7200⟩] [] ⟨0, 36000⟩ 2 :=
  C5_deterministic_and_order_insensitive
    [⟨0, 3600⟩, ⟨0, 7200⟩] [⟨0, 7200⟩, ⟨0, 3600⟩] [] [] ⟨0, 36000⟩ 2
    (List.Perm.swap _ _ _) (List.Perm.refl _)

/-- C6: before gap extraction every busy interval is clipped to the window
(`[max(start, w.start), min(end, w.end))`), intervals that do not intersect
the window (`end ≤ w.start` or `start ≥ w.end`) are discarded, and the merged
timeline consists of strictly separated blocks covering exactly the clipped
union of both participants' busy time — including overlaps within one
participant's own calendar, as in the spec's 9:00–11:00 / 10:00–12:00
single-participant example merging to 9:00–12:00. -/
theorem C6_clip_discard_merge (a b : List TimeInterval) (w : QueryWindow) :
    (∀ i, clipToWindow w i = none ↔ (i.stop ≤ w.start ∨ w.stop ≤ i.start)) ∧
    (∀ i j, clipToWindow w i = some j →
      j = ⟨max i.start w.start, min i.stop w.stop⟩) ∧
    (mergedTimeline a b w).Pairwise sepLT ∧
    (∀ x, busyAt (mergedTimeline a b w) x ↔
      busyAt (a ++ b) x ∧ w.start ≤ x ∧ x < w.stop) ∧
    mergedTimeline [⟨32400, 39600⟩, ⟨36000, 43200⟩] [] ⟨32400, 61200⟩ =
      [⟨32400, 43200⟩] :=
  ⟨fun i => clipToWindow_eq_none_iff w i,
   fun i j hij => (clipToWindow_eq_some w i j hij).1,
   mergedTimeline_sep a b w,
   fun x => mergedTimeline_busyAt a b w x,
   by decide⟩

/-- Witness for C6: a concrete clip — the interval 0–7200 partially overlaps
the window 0–3600 and is clipped to it. -/
theorem C6_witness :
    (⟨0, 3600⟩ : TimeInterval) =
      ⟨max (0 : Int) 0, min (7200 : Int) 3600⟩ :=
  (C6_clip_discard_merge [] [] ⟨0, 3600⟩).2.1 ⟨0, 7200⟩ ⟨0, 3600⟩ (by decide)

/-- C7: on two empty calendars the engine returns the single slot spanning
the whole window with `duration_hours = (end - start)/3600` when that
duration meets the threshold, and the empty list otherwise. -/
theorem C7_empty_input_identity (w : QueryWindow) (t : ℚ)
    (hw : w.start < w.stop) (ht : 0 ≤ t) :
    computeFreeSlots [] [] w t =
      if t ≤ ((w.stop - w.start : Int) : ℚ) / 3600 then
        .ok [⟨w.start, w.stop, ((w.stop - w.start : Int) : ℚ) / 3600⟩]
      else .ok [] := by
  have hd : durationHoursOf ⟨w.start, w.stop⟩ =
      ((w.stop - w.start : Int) : ℚ) / 3600 := durationHoursOf_eq_div _
  unfold computeFreeSlots
  rw [if_neg (not_not_intro (by simp)), if_neg (by omega),
    if_neg (not_lt.mpr ht)]
  have hgaps : extractGaps w (mergedTimeline [] [] w) = [⟨w.start, w.stop⟩] := by
    show gapsGo w w.start [] = _
    unfold gapsGo
    rw [if_pos hw]
  rw [hgaps]
  by_cases hc : t ≤ ((w.stop - w.start : Int) : ℚ) / 3600
  · rw [if_pos hc]
    have hc' : t ≤ durationHoursOf ⟨w.start, w.stop⟩ := by rw [hd]; exact hc
    simp [List.filter_cons, mkFreeSlot, hc', hd]
    push_cast at hc ⊢
    exact hc
  · rw [if_neg hc]
    have hc' : ¬ t ≤ durationHoursOf ⟨w.start, w.stop⟩ := by rw [hd]; exact hc
    simp [List.filter_cons, mkFreeSlot, hc']

/-- Witness for C7: empty calendars, a three-hour window and a two-hour
threshold yield the single full-window slot (the spec's scenario 3). -/
theorem C7_witness :
    computeFreeSlots [] [] ⟨0, 10800⟩ 2 =
      if (2 : ℚ) ≤ (((10800 : Int) - 0 : Int) : ℚ) / 3600 then
        .ok [⟨0, 10800, (((10800 : Int) - 0 : Int) : ℚ) / 3600⟩]
      else .ok [] :=
  C7_empty_input_identity ⟨0, 10800⟩ 2 (by decide) (by decide)

/-- C8: raising the threshold only removes slots — with `t1 ≤ t2` the result
at `t2` is a sublist of the result at `t1`, hence a subset with no more
elements. -/
theorem C8_threshold_monotone
    (a b : List TimeInterval) (w : QueryWindow) (t1 t2 : ℚ)
    (r1 r2 : List FreeSlot) (h12 : t1 ≤ t2)
    (h1 : computeFreeSlots a b w t1 = .ok r1)
    (h2 : computeFreeSlots a b w t2 = .ok r2) :
    r2.Sublist r1 ∧ r2.length ≤ r1.length ∧ ∀ s ∈ r2, s ∈ r1 := by
  obtain ⟨_, _, _, e1⟩ := computeFreeSlots_ok_inversion h1
  obtain ⟨_, _, _, e2⟩ := computeFreeSlots_ok_inversion h2
  subst e1
  subst e2
  have hsub : (((extractGaps w (mergedTimeline a b w)).map mkFreeSlot).filter
        fun s => t2 ≤ s.durationHours).Sublist
      (((extractGaps w (mergedTimeline a b w)).map mkFreeSlot).filter
        fun s => t1 ≤ s.durationHours) := by
    apply List.monotone_filter_right
    intro s hs
    rw [decide_eq_true_eq] at hs ⊢
    exact le_trans h12 hs
  exact ⟨hsub, hsub.length_le, fun s hs => hsub.subset hs⟩

/-- Witness for C8: thresholds 1 and 2 on the same input — the stricter
threshold keeps only the five-hour slot, a sublist of the two-slot result. -/
theorem C8_witness :
    ([(⟨43200, 61200, 5⟩ : FreeSlot)].Sublist
      [(⟨32400, 36000, 1⟩ : FreeSlot), ⟨43200, 61200, 5⟩]) ∧
    ([(⟨43200, 61200, 5⟩ : FreeSlot)].length ≤
      [(⟨32400, 36000, 1⟩ : FreeSlot), ⟨43200, 61200, 5⟩].length) ∧
    ∀ s ∈ [(⟨43200, 61200, 5⟩ : FreeSlot)],
      s ∈ [(⟨32400, 36000, 1⟩ : FreeSlot), ⟨43200, 61200, 5⟩] :=
  C8_threshold_monotone [⟨36000, 43200⟩] [] ⟨32400, 61200⟩ 1 2
    [⟨32400, 36000, 1⟩, ⟨43200, 61200, 5⟩] [⟨43200, 61200, 5⟩]
    (by decide) (by decide) (by decide)

/-- C9 counterexample: with threshold 0, a busy interval starting exactly at
the window start (busy 0–3600 inside window 0–7200) leaves a zero-length
boundary gap at the window start, yet the result is only the positive slot
3600–7200 — the zero-length boundary slot `{0, 0}` is not returned, and no
returned slot is zero-length, because a candidate is emitted only when
`block.start > cursor`. -/
theorem C9_counterexample :
    computeFreeSlots [⟨0, 3600⟩] [] ⟨0, 7200⟩ 0 = .ok [⟨3600, 7200, 1⟩] ∧
    (⟨0, 0, 0⟩ : FreeSlot) ∉ [(⟨3600, 7200, 1⟩ : FreeSlot)] ∧
    ∀ s ∈ [(⟨3600, 7200, 1⟩ : FreeSlot)], s.start ≠ s.stop := by
  refine ⟨by decide, by decide, ?_⟩
  intro s hs
  rw [List.mem_singleton] at hs
  subst hs
  decide

/-- C9 amended: with `minDurationHours = 0` the engine returns every
*nonempty* maximal gap of the merged timeline, but never a zero-length slot:
every returned slot has `start < stop`, because the gap-extraction step emits
a candidate only when `block.start > cursor`. -/
theorem C9_zero_threshold_returns_every_nonempty_gap
    (a b : List TimeInterval) (w : QueryWindow) (res : List FreeSlot)
    (h : computeFreeSlots a b w 0 = .ok res) :
    (∀ g, isMaximalGap w (mergedTimeline a b w) g → mkFreeSlot g ∈ res) ∧
    ∀ s ∈ res, s.start < s.stop := by
  constructor
  · intro g hg
    exact (mem_computeFreeSlots_result h _).mpr
      ⟨g, hg, le_of_lt (durationHoursOf_pos hg.1), rfl⟩
  · intro s hs
    obtain ⟨g, hg, _, rfl⟩ := (mem_computeFreeSlots_result h s).mp hs
    exact hg.1

/-- Witness for the amended C9 at the counterexample input: the unique
maximal gap 3600–7200 is returned, and the returned slot is nonempty. -/
theorem C9_amended_witness :
    (∀ g, isMaximalGap ⟨0, 7200⟩ (mergedTimeline [⟨0, 3600⟩] [] ⟨0, 7200⟩) g →
      mkFreeSlot g ∈ [(⟨3600, 7200, 1⟩ : FreeSlot)]) ∧
    ∀ s ∈ [(⟨3600, 7200, 1⟩ : FreeSlot)], s.start < s.stop :=
  C9_zero_threshold_returns_every_nonempty_gap [⟨0, 3600⟩] [] ⟨0, 7200⟩
    [⟨3600, 7200, 1⟩] (by decide)

/-- C10 counterexample: on a fresh schedule screen, when the partner-events
fetch and the free-slots fetch both reject, `loadScheduleData` leaves
`error` null and `freeSlots` empty, so the screen renders the "No mutual
free time found in the next 7 days" empty card and no error card — the
fetch failure is presented as a valid empty result, contradicting the
claim that it is surfaced to the user. -/
theorem C10_counterexample :
    showsNoMutualFreeTimeMessage
      (loadScheduleData initialScheduleScreenState
        (.fulfilled ⟨[], "Alice"⟩) (.rejected "Network Error")
        (.rejected "Network Error")) ∧
    ¬ showsErrorCard
      (loadScheduleData initialScheduleScreenState
        (.fulfilled ⟨[], "Alice"⟩) (.rejected "Network Error")
        (.rejected "Network Error")) := by
  decide

/-- C10 amended: `loadScheduleData` ignores individual fetch failures —
`Promise.allSettled` never rejects, so the screen's `error` is always reset
to null, a rejected free-slots fetch leaves the previous `freeSlots`
unchanged, and on a screen with no previously loaded slots a rejected
free-slots fetch renders the "No mutual free time" empty card with no error
card. -/
theorem C10_fetch_failures_are_silently_ignored
    (st : ScheduleScreenState)
    (myRes partnerRes : SettledResult GetEventsResponse)
    (freeRes : SettledResult GetFreeSlotsResponse) :
    (loadScheduleData st myRes partnerRes freeRes).error = none ∧
    (∀ reason, freeRes = .rejected reason →
      (loadScheduleData st myRes partnerRes freeRes).freeSlots =
        st.freeSlots) ∧
    (∀ reason, freeRes = .rejected reason → st.freeSlots = [] →
      showsNoMutualFreeTimeMessage
        (loadScheduleData st myRes partnerRes freeRes) ∧
      ¬ showsErrorCard (loadScheduleData st myRes partnerRes freeRes)) := by
  refine ⟨?_, ?_, ?_⟩
  · cases myRes <;> cases partnerRes <;> cases freeRes <;>
      simp [loadScheduleData]
  · rintro reason rfl
    cases myRes <;> cases partnerRes <;> simp [loadScheduleData]
  · rintro reason rfl hempty
    cases myRes <;> cases partnerRes <;>
      simp [loadScheduleData, showsNoMutualFreeTimeMessage, showsErrorCard,
        hempty]

/-- Witness for the amended C10 at the counterexample input. -/
theorem C10_amended_witness :
    (loadScheduleData initialScheduleScreenState
      (.fulfilled ⟨[], "Alice"⟩) (.rejected "Network Error")
      (.rejected "Network Error")).error = none ∧
    (loadScheduleData initialScheduleScreenState
      (.fulfilled ⟨[], "Alice"⟩) (.rejected "Network Error")
      (.rejected "Network Error")).freeSlots = [] ∧
    showsNoMutualFreeTimeMessage
      (loadScheduleData initialScheduleScreenState
        (.fulfilled ⟨[], "Alice"⟩) (.rejected "Network Error")
        (.rejected "Network Error")) ∧
    ¬ showsErrorCard
      (loadScheduleData initialScheduleScreenState
        (.fulfilled ⟨[], "Alice"⟩) (.rejected "Network Error")
        (.rejected "Network Error")) := by
  have h := C10_fetch_failures_are_silently_ignored initialScheduleScreenState
    (.fulfilled ⟨[], "Alice"⟩) (.rejected "Network Error")
    (.rejected "Network Error")
  have h3 := h.2.2 "Network Error" rfl rfl
  exact ⟨h.1, h.2.1 "Network Error" rfl, h3.1, h3.2⟩

end DatePlanner
